import Mathlib

/-!
Verification of the fuzzy anomaly-detection system
(`fuzzy_anomaly_system.py`, class `FuzzyAnomalyDetector`).

The Python code builds a Mamdani fuzzy inference system with the scikit-fuzzy
library.  Everything the corresponding claims depend on is embedded here over
exact rationals (`ℚ`): the Python floats carry values that stay exactly
representable in the concrete evaluations considered, and none of the claims
concern rounding behaviour.

The pieces of the pipeline implemented inside `src/fuzzy_anomaly_system.py`
(membership-function parameters, the 14-rule base, the clipping in `evaluate`,
the label extraction at line 201-208) are translated directly.  The inference
engine itself lives in the external scikit-fuzzy library; it is modelled here
from the library's documented Mamdani semantics, which the spec also records
(§4.3-§4.4): AND = minimum t-norm, implication = clipping the consequent
membership curve at the firing strength, aggregation = pointwise maximum,
defuzzification = centroid of the aggregated piecewise-linear curve computed
on the discretized output universe (upsampled with the points where each
consequent curve crosses its cut level), and, when the aggregated curve is
identically zero, a raised error ("Total area is zero in defuzzification!",
re-raised by the control-system wrapper as "Crisp output cannot be
calculated ...") rather than any fallback value.
-/

/-- np.clip(x, lo, hi): values below `lo` become `lo`, values above `hi`
become `hi`, everything else passes through unchanged. -/
def npClip (lo hi x : ℚ) : ℚ :=
  if x < lo then lo else if hi < x then hi else x

/-- skfuzzy.trimf evaluated at a single point `x` for parameters `a ≤ b ≤ c`:
zero outside `(a, c)`, rising linearly on `(a, b)`, equal to `1` at `x = b`,
falling linearly on `(b, c)`.  This is the pointwise reading of the library's
vectorised implementation (zeros everywhere, then the rising side where
`a < x < b`, the falling side where `b < x < c`, and finally `1` where
`x == b`). -/
def trimf (a b c x : ℚ) : ℚ :=
  if x = b then 1
  else if a < x ∧ x < b then (x - a) / (b - a)
  else if b < x ∧ x < c then (c - x) / (c - b)
  else 0

/-- The three antecedent (input) variables of the detector:
`forecast_error`, `variance_change`, `correlation_change`. -/
inductive InVar where
  | forecastErr
  | varianceChg
  | correlationChg
  deriving DecidableEq, BEq, Repr

/-- The linguistic terms shared by all three input variables. -/
inductive InTerm where
  | low
  | medium
  | high
  deriving DecidableEq, BEq, Repr

/-- The linguistic terms of the output variable `anomaly_level`, in the order
they are registered in `_define_membership_functions`. -/
inductive OutTerm where
  | normal
  | slightlyAnomalous
  | moderatelyAnomalous
  | stronglyAnomalous
  deriving DecidableEq, BEq, Repr

/-- Membership functions of the input variables
(`_define_membership_functions`, lines 36-39): every input variable gets
`low = trimf [0.0, 0.0, 0.4]`, `medium = trimf [0.2, 0.5, 0.8]`,
`high = trimf [0.6, 1.0, 1.0]`.  The breakpoints all lie on the 101-point
grid `linspace(0, 1, 101)`, so linear interpolation of the sampled curves
(what the library does when it fuzzifies an input) coincides with the exact
triangular formula used here. -/
def inMF : InTerm → ℚ → ℚ
  | .low => trimf 0 0 (4/10)
  | .medium => trimf (2/10) (5/10) (8/10)
  | .high => trimf (6/10) 1 1

/-- Membership functions of the output variable `anomaly_level`
(lines 41-50): `normal = trimf [0, 0, 3]`, `slightly_anomalous = trimf
[1, 3, 5]`, `moderately_anomalous = trimf [3, 5, 7]`,
`strongly_anomalous = trimf [6, 10, 10]`. -/
def outMF : OutTerm → ℚ → ℚ
  | .normal => trimf 0 0 3
  | .slightlyAnomalous => trimf 1 3 5
  | .moderatelyAnomalous => trimf 3 5 7
  | .stronglyAnomalous => trimf 6 10 10

/-- String name of each output term, as used for the returned label. -/
def outLabel : OutTerm → String
  | .normal => "normal"
  | .slightlyAnomalous => "slightly_anomalous"
  | .moderatelyAnomalous => "moderately_anomalous"
  | .stronglyAnomalous => "strongly_anomalous"

/-- Registration order of the output terms (Python dict insertion order,
used both for aggregation and for the label argmax tie-break). -/
def outTermsOrder : List OutTerm :=
  [.normal, .slightlyAnomalous, .moderatelyAnomalous, .stronglyAnomalous]

/-- np.linspace(0, 10, 101): the discretized universe of `anomaly_level`,
101 evenly spaced points `k * 10 / 100`. -/
def outUniverse : List ℚ :=
  (List.range 101).map (fun k : ℕ => (k : ℚ) * 10 / 100)

/-- The membership curve of an output term sampled on `outUniverse`, exactly
as `fuzz.trimf(self.anomaly_level.universe, [...])` stores it. -/
def sampledMF (t : OutTerm) : List ℚ :=
  outUniverse.map (outMF t)

/-- One fuzzy rule: a conjunction of `(variable, term)` literals and a single
consequent output term, plus the label given in the source. -/
structure Rule where
  antecedent : List (InVar × InTerm)
  consequent : OutTerm
  label : String
  deriving DecidableEq, BEq, Repr

/-- The 14-rule base of `_define_rules` (lines 52-167), in source order. -/
def rules : List Rule :=
  [ { antecedent := [(.forecastErr, .low), (.varianceChg, .low), (.correlationChg, .low)],
      consequent := .normal, label := "R1_normal_all_low" },
    { antecedent := [(.forecastErr, .medium), (.varianceChg, .low), (.correlationChg, .low)],
      consequent := .slightlyAnomalous, label := "R2_slightly_anom_medium_fe" },
    { antecedent := [(.forecastErr, .low), (.varianceChg, .medium), (.correlationChg, .low)],
      consequent := .slightlyAnomalous, label := "R3_slightly_anom_medium_vc" },
    { antecedent := [(.forecastErr, .low), (.varianceChg, .low), (.correlationChg, .medium)],
      consequent := .slightlyAnomalous, label := "R4_slightly_anom_medium_cc" },
    { antecedent := [(.forecastErr, .medium), (.varianceChg, .medium)],
      consequent := .moderatelyAnomalous, label := "R5_moderate_fe_vc" },
    { antecedent := [(.forecastErr, .medium), (.correlationChg, .medium)],
      consequent := .moderatelyAnomalous, label := "R6_moderate_fe_cc" },
    { antecedent := [(.varianceChg, .medium), (.correlationChg, .medium)],
      consequent := .moderatelyAnomalous, label := "R7_moderate_vc_cc" },
    { antecedent := [(.forecastErr, .high), (.varianceChg, .high)],
      consequent := .stronglyAnomalous, label := "R8_strong_fe_vc" },
    { antecedent := [(.forecastErr, .high), (.correlationChg, .high)],
      consequent := .stronglyAnomalous, label := "R9_strong_fe_cc" },
    { antecedent := [(.varianceChg, .high), (.correlationChg, .high)],
      consequent := .stronglyAnomalous, label := "R10_strong_vc_cc" },
    { antecedent := [(.forecastErr, .high), (.varianceChg, .medium)],
      consequent := .stronglyAnomalous, label := "R11_high_fe_medium_vc" },
    { antecedent := [(.forecastErr, .medium), (.varianceChg, .high)],
      consequent := .stronglyAnomalous, label := "R12_medium_fe_high_vc" },
    { antecedent := [(.forecastErr, .high), (.correlationChg, .medium)],
      consequent := .stronglyAnomalous, label := "R13_high_fe_medium_cc" },
    { antecedent := [(.varianceChg, .high), (.correlationChg, .medium)],
      consequent := .stronglyAnomalous, label := "R14_high_vc_medium_cc" } ]

/-- Crisp input lookup by variable name. -/
def inputOf (fe vc cc : ℚ) : InVar → ℚ
  | .forecastErr => fe
  | .varianceChg => vc
  | .correlationChg => cc

/-- Firing strength of a rule at crisp inputs `(fe, vc, cc)`: the minimum
t-norm over the membership degrees of the antecedent literals (Mamdani AND;
skfuzzy combines the conjuncts with `np.fmin`).  The fold starts at `1`, the
neutral element of `min` on membership degrees. -/
def fire (fe vc cc : ℚ) (r : Rule) : ℚ :=
  (r.antecedent.map (fun p => inMF p.2 (inputOf fe vc cc p.1))).foldl min 1

/-- Aggregated activation ("cut") of an output term: the maximum of the
firing strengths of all rules with that consequent (skfuzzy accumulates the
per-rule activations into the consequent term with `np.fmax`).  Firing
strengths are nonnegative, so starting the fold at `0` is equivalent to
starting from the first rule's activation. -/
def cut (fe vc cc : ℚ) (t : OutTerm) : ℚ :=
  ((rules.filter (fun r => r.consequent == t)).map (fire fe vc cc)).foldl max 0

/-- Does the rule base contain a rule whose antecedent is (a permutation of)
the given literal list with the given consequent? -/
def hasRuleMatching (ant : List (InVar × InTerm)) (t : OutTerm) : Bool :=
  rules.any (fun r => r.antecedent.isPerm ant && r.consequent == t)

/-- np.interp(v, xs, ys) for a single query point `v` over sample points `xs`
(ascending) with values `ys`: clamped to the first/last value outside the
sampled range, linear interpolation on the segment containing `v` inside it. -/
def interp1 : List ℚ → List ℚ → ℚ → ℚ
  | [_], y1 :: _, _ => y1
  | x1 :: x2 :: xs, y1 :: y2 :: ys, v =>
      if v ≤ x1 then y1
      else if v ≤ x2 then y1 + (v - x1) * (y2 - y1) / (x2 - x1)
      else interp1 (x2 :: xs) (y2 :: ys) v
  | _, _, _ => 0

/-- Crossing test of skfuzzy's `interp_universe_fast`: a sampled membership
curve crosses level `lvl` between two consecutive samples when the predicate
`mf >= lvl` (or `mf > 0` for the special case `lvl == 0`) changes truth value
from one sample to the next (`np.diff` of the boolean array). -/
def crossIndicator (lvl y1 y2 : ℚ) : Bool :=
  if lvl = 0 then decide (0 < y1) != decide (0 < y2)
  else decide (lvl ≤ y1) != decide (lvl ≤ y2)

/-- Interpolated universe value where the curve crosses `lvl` between
`(x1, y1)` and `(x2, y2)`: `x1 + (lvl - y1) * (x2 - x1) / (y2 - y1)`. -/
def crossPoint (x1 y1 x2 y2 lvl : ℚ) : ℚ :=
  x1 + (lvl - y1) * (x2 - x1) / (y2 - y1)

/-- skfuzzy `interp_universe_fast(x, xmf, y)`: the universe values where the
sampled curve `xmf` crosses membership level `y`, one candidate per adjacent
sample pair whose crossing test fires. -/
def interpUniverse : List ℚ → List ℚ → ℚ → List ℚ
  | x1 :: x2 :: xs, y1 :: y2 :: ys, lvl =>
      (if crossIndicator lvl y1 y2 then [crossPoint x1 y1 x2 y2 lvl] else [])
        ++ interpUniverse (x2 :: xs) (y2 :: ys) lvl
  | _, _, _ => []

/-- Sorted-unique insertion of a batch of extra points into an already sorted
universe (np.union1d of the base universe with the crossing points found by
`find_memberships`). -/
def unionSorted (base : List ℚ) (extra : List ℚ) : List ℚ :=
  extra.foldl (fun acc v => if v ∈ acc then acc else acc.orderedInsert (· ≤ ·) v) base

/-- The upsampled output universe used for defuzzification
(`CrispValueCalculator.find_memberships`): the 101-point base universe plus,
for every output term, the points where its sampled membership curve crosses
that term's cut level. -/
def upsample (cuts : OutTerm → ℚ) : List ℚ :=
  unionSorted outUniverse
    ((outTermsOrder.map (fun t => interpUniverse outUniverse (sampledMF t) (cuts t))).flatten)

/-- Aggregated output membership at a single universe point: the pointwise
maximum over the output terms of the consequent curve clipped at its cut
level (`np.minimum(term._cut, upsampled_mf)` accumulated with `np.maximum`
into an array initialised to zeros). -/
def aggMF (cuts : OutTerm → ℚ) (u : ℚ) : ℚ :=
  outTermsOrder.foldl
    (fun acc t => max acc (min (cuts t) (interp1 outUniverse (sampledMF t) u))) 0

/-- np.finfo(float).eps = 2^-52, used by skfuzzy to guard the centroid
divisions. -/
def machineEps : ℚ := 1 / 2 ^ 52

/-- One iteration of skfuzzy's `centroid(x, mfx)` loop: the
`(moment * area, area)` contribution of the segment from `(x1, y1)` to
`(x2, y2)`, with the library's case split (skip zero-height or zero-width
segments; rectangle when `y1 == y2`; triangle when one endpoint is zero;
general trapezoid otherwise). -/
def segContrib (x1 y1 x2 y2 : ℚ) : ℚ × ℚ :=
  if (y1 = y2 ∧ y1 = 0) ∨ x1 = x2 then (0, 0)
  else if y1 = y2 then
    ((1/2 * (x1 + x2)) * ((x2 - x1) * y1), (x2 - x1) * y1)
  else if y1 = 0 then
    ((2/3 * (x2 - x1) + x1) * (1/2 * (x2 - x1) * y2), 1/2 * (x2 - x1) * y2)
  else if y2 = 0 then
    ((1/3 * (x2 - x1) + x1) * (1/2 * (x2 - x1) * y1), 1/2 * (x2 - x1) * y1)
  else
    (((2/3 * (x2 - x1) * (y2 + 1/2 * y1)) / (y1 + y2) + x1) * (1/2 * (x2 - x1) * (y1 + y2)),
      1/2 * (x2 - x1) * (y1 + y2))

/-- Summed `(moment * area, area)` over all consecutive segment pairs of the
sampled curve, as accumulated by skfuzzy's centroid loop. -/
def centroidSums : List (ℚ × ℚ) → ℚ × ℚ
  | p1 :: p2 :: rest =>
      let s := centroidSums (p2 :: rest)
      let c := segContrib p1.1 p1.2 p2.1 p2.2
      (s.1 + c.1, s.2 + c.2)
  | _ => (0, 0)

/-- skfuzzy centroid defuzzification of a sampled curve given as
`(universe point, membership)` pairs: `sum_moment_area / fmax(sum_area, eps)`,
with the library's singleton special case. -/
def centroid (pts : List (ℚ × ℚ)) : ℚ :=
  match pts with
  | [p] => p.1 * p.2 / max p.2 machineEps
  | l =>
      let s := centroidSums l
      s.1 / max s.2 machineEps

/-- Python's `max(membership_values, key=membership_values.get)` over an
association list in dict insertion order: the first key whose value is not
exceeded by any later value (a later key replaces the current best only when
its value is strictly greater). -/
def argmaxLabel : List (String × ℚ) → String
  | [] => ""
  | p :: rest => (rest.foldl (fun best q => if best.2 < q.2 then q else best) p).1

/-- Error raised by the inference engine.  When no consequent term has
positive activation the aggregated curve is identically zero and skfuzzy's
defuzzifier raises (assert "Total area is zero in defuzzification!",
re-raised by the control-system wrapper as ValueError "Crisp output cannot
be calculated, likely because the system is too sparse. ...").  The Python
`evaluate` has no handler for it, so it propagates to the caller. -/
inductive EvalError where
  | crispOutputNotCalculable
  deriving DecidableEq, Repr

/-- Mutable state of the `ControlSystemSimulation` object stored on the
detector instance: the per-variable input buffer written by
`self.simulator.input[...] = ...` and the output buffer written by
`compute()`. -/
structure SimState where
  input_forecast_error : Option ℚ
  input_variance_change : Option ℚ
  input_correlation_change : Option ℚ
  output_anomaly_level : Option ℚ
  deriving DecidableEq, Repr

/-- State of a freshly constructed simulator: no inputs set, no output
computed. -/
def initSimState : SimState :=
  { input_forecast_error := none, input_variance_change := none,
    input_correlation_change := none, output_anomaly_level := none }

/-- The aggregated output fuzzy set as `(universe point, membership)` pairs
over the upsampled universe. -/
def aggPts (cuts : OutTerm → ℚ) : List (ℚ × ℚ) :=
  (upsample cuts).map (fun u => (u, aggMF cuts u))

/-- Label extraction of `evaluate` (lines 201-208): re-fuzzify the crisp
value against every output term with `fuzz.interp_membership` (dict in
insertion order) and take the argmax. -/
def labelFor (c : ℚ) : String :=
  argmaxLabel (outTermsOrder.map (fun t => (outLabel t, interp1 outUniverse (sampledMF t) c)))

/-- The inference pipeline run by `compute()` followed by the label
extraction of `evaluate`, as a function of the four aggregated cut levels:
upsample the output universe, aggregate the clipped consequent curves, fail
if the aggregate is identically zero (skfuzzy's zero-area assert), otherwise
return the centroid together with the dominant label. -/
def inferResult (cuts : OutTerm → ℚ) : Except EvalError (ℚ × String) :=
  let pts := aggPts cuts
  if (pts.map Prod.snd).sum = 0 then .error .crispOutputNotCalculable
  else
    let c := centroid pts
    .ok (c, labelFor c)

/-- The three buffer writes `self.simulator.input[...] = ...` at lines
193-195: each assignment overwrites the corresponding input slot of the
shared simulator. -/
def writeInputs (s : SimState) (fe vc cc : ℚ) : SimState :=
  { s with input_forecast_error := some fe, input_variance_change := some vc,
           input_correlation_change := some cc }

/-- Effect of `compute()` on the simulator's output buffer: the crisp value
is stored on success; when the defuzzifier raises, the exception propagates
before the assignment, leaving the buffer untouched. -/
def writeOut (s1 : SimState) (res : Except EvalError (ℚ × String)) : SimState :=
  match res with
  | .ok r => { s1 with output_anomaly_level := some r.1 }
  | .error _ => s1

/-- The body of `evaluate` after the initial `np.clip` at lines 189-191:
write the (re-clipped, `clip_to_bounds=True`) inputs into the simulator's
buffers, run `compute()`, and on success store the crisp output in the output
buffer and return `(crisp_value, label)`.  On failure the exception
propagates while the input buffers keep the values already written. -/
def evaluateCore (s : SimState) (fe0 vc0 cc0 : ℚ) :
    Except EvalError (ℚ × String) × SimState :=
  let fe := npClip 0 1 fe0
  let vc := npClip 0 1 vc0
  let cc := npClip 0 1 cc0
  let s1 := writeInputs s fe vc cc
  let res := inferResult (fun t => cut fe vc cc t)
  (res, writeOut s1 res)

/-- `FuzzyAnomalyDetector.evaluate` (lines 176-210): clip each input to
`[0, 1]` with `np.clip`, feed the simulator, compute, and return the crisp
anomaly level together with the dominant linguistic label.  The simulator
state is threaded explicitly; the returned state is the mutated simulator. -/
def evaluate (s : SimState) (x y z : ℚ) : Except EvalError (ℚ × String) × SimState :=
  evaluateCore s (npClip 0 1 x) (npClip 0 1 y) (npClip 0 1 z)

/-- An input float that is not NaN: either a finite rational value or one of
the two infinities.  (NaN is a floating-point artefact outside this exact
model; no claim settled here depends on NaN arithmetic.) -/
inductive XVal where
  | fin (q : ℚ)
  | posInf
  | negInf
  deriving DecidableEq, Repr

/-- `float(np.clip(v, 0.0, 1.0))` on an extended-real input: anything below
`0` (including `-inf`) becomes `0.0`, anything above `1` (including `+inf`)
becomes `1.0`, finite in-range values pass through; the result is always
finite. -/
def clipX01 : XVal → ℚ
  | .negInf => 0
  | .posInf => 1
  | .fin q => npClip 0 1 q

/-- `evaluate` called with possibly infinite inputs: lines 189-191 clip them
to finite values in `[0, 1]` before anything else runs, so the pipeline
proceeds exactly as for finite inputs. -/
def evaluateX (s : SimState) (x y z : XVal) : Except EvalError (ℚ × String) × SimState :=
  evaluateCore s (clipX01 x) (clipX01 y) (clipX01 z)

/-! ### Helper lemmas -/

theorem le_foldl_max_init (l : List ℚ) (a : ℚ) : a ≤ l.foldl max a := by
  induction l generalizing a with
  | nil => exact le_refl a
  | cons x xs ih => exact le_trans (le_max_left a x) (ih (max a x))

theorem le_foldl_max_of_mem {l : List ℚ} {x : ℚ} (a : ℚ) (hx : x ∈ l) :
    x ≤ l.foldl max a := by
  induction l generalizing a with
  | nil => cases hx
  | cons y ys ih =>
      rcases List.mem_cons.mp hx with h | h
      · subst h
        exact le_trans (le_max_right a x) (le_foldl_max_init ys (max a x))
      · exact ih (max a y) h

theorem foldl_max_le {k : ℚ} : ∀ (l : List ℚ) (a : ℚ), a ≤ k → (∀ x ∈ l, x ≤ k) →
    l.foldl max a ≤ k
  | [], _, ha, _ => ha
  | x :: xs, a, ha, h =>
      foldl_max_le xs (max a x) (max_le ha (h x (List.mem_cons_self x xs)))
        (fun y hy => h y (List.mem_cons_of_mem x hy))

theorem fold_min2_swap (x y : ℚ) :
    List.foldl min 1 [x, y] = List.foldl min 1 [y, x] := by
  simp only [List.foldl]
  exact min_right_comm 1 x y

theorem fold_min3_swap12 (x y z : ℚ) :
    List.foldl min 1 [x, y, z] = List.foldl min 1 [y, x, z] := by
  simp only [List.foldl]
  rw [min_right_comm 1 x y]

theorem npClip_idem (x : ℚ) : npClip 0 1 (npClip 0 1 x) = npClip 0 1 x := by
  unfold npClip
  split_ifs <;> linarith

theorem npClip_mem_unit (x : ℚ) : 0 ≤ npClip 0 1 x ∧ npClip 0 1 x ≤ 1 := by
  unfold npClip
  split_ifs <;> constructor <;> linarith

theorem evaluateCore_eq (s : SimState) (a b c : ℚ) :
    evaluateCore s a b c =
      (inferResult (fun t => cut (npClip 0 1 a) (npClip 0 1 b) (npClip 0 1 c) t),
        writeOut (writeInputs s (npClip 0 1 a) (npClip 0 1 b) (npClip 0 1 c))
          (inferResult (fun t => cut (npClip 0 1 a) (npClip 0 1 b) (npClip 0 1 c) t))) :=
  rfl

theorem evaluate_fst (s : SimState) (x y z : ℚ) :
    (evaluate s x y z).1 =
      inferResult (fun t => cut (npClip 0 1 x) (npClip 0 1 y) (npClip 0 1 z) t) := by
  unfold evaluate
  rw [evaluateCore_eq, npClip_idem, npClip_idem, npClip_idem]

instance : RightCommutative (max : ℚ → ℚ → ℚ) :=
  ⟨fun a b c => by rw [max_assoc, max_comm b c, max_assoc]⟩

theorem cut_swap_fe_vc (a b c : ℚ) : ∀ t, cut a b c t = cut b a c t := by
  intro t
  cases t with
  | normal =>
      simp only [cut, rules, fire, List.filter, List.map, inputOf]
      rw [fold_min3_swap12 (inMF InTerm.low a) (inMF InTerm.low b) (inMF InTerm.low c)]
  | slightlyAnomalous =>
      simp only [cut, rules, fire, List.filter, List.map, inputOf]
      rw [fold_min3_swap12 (inMF InTerm.medium b) (inMF InTerm.low a) (inMF InTerm.low c),
        fold_min3_swap12 (inMF InTerm.low b) (inMF InTerm.medium a) (inMF InTerm.low c),
        fold_min3_swap12 (inMF InTerm.low b) (inMF InTerm.low a) (inMF InTerm.medium c)]
      exact List.Perm.foldl_eq (List.Perm.swap _ _ _) 0
  | moderatelyAnomalous =>
      simp only [cut, rules, fire, List.filter, List.map, inputOf]
      rw [fold_min2_swap (inMF InTerm.medium b) (inMF InTerm.medium a)]
      exact List.Perm.foldl_eq (.cons _ (List.Perm.swap _ _ _)) 0
  | stronglyAnomalous =>
      simp only [cut, rules, fire, List.filter, List.map, inputOf]
      rw [fold_min2_swap (inMF InTerm.high b) (inMF InTerm.high a),
        fold_min2_swap (inMF InTerm.high b) (inMF InTerm.medium a),
        fold_min2_swap (inMF InTerm.medium b) (inMF InTerm.high a)]
      exact List.Perm.foldl_eq
        (.cons _ ((List.Perm.swap _ _ _).trans
          (.cons _ (.cons _ ((List.Perm.swap _ _ _).trans
            (.cons _ (.cons _ (List.Perm.swap _ _ _)))))))) 0


theorem writeOut_preserves_inputs (s1 : SimState) (res : Except EvalError (ℚ × String)) :
    (writeOut s1 res).input_forecast_error = s1.input_forecast_error ∧
    (writeOut s1 res).input_variance_change = s1.input_variance_change ∧
    (writeOut s1 res).input_correlation_change = s1.input_correlation_change := by
  rcases res with e | r <;> simp [writeOut]

theorem evaluateCore_repeat (s : SimState) (a b c : ℚ) :
    evaluateCore ((evaluateCore s a b c).2) a b c = evaluateCore s a b c := by
  rw [evaluateCore_eq s a b c]
  rw [evaluateCore_eq]
  rcases h : inferResult (fun t => cut (npClip 0 1 a) (npClip 0 1 b) (npClip 0 1 c) t)
    with e | r <;> simp [writeOut, writeInputs]

theorem npClip_clipX01 (v : XVal) : npClip 0 1 (clipX01 v) = clipX01 v := by
  cases v with
  | fin q => exact npClip_idem q
  | posInf => norm_num [clipX01, npClip]
  | negInf => norm_num [clipX01, npClip]

/-! ### Claim theorems -/

/-- Claim C7 — for triangular parameters `a ≤ b ≤ c` the membership at `a`
is `0`, at `b` is `1`, at `c` is `0` (with the step limit `1` at the merged
vertex when `a = b` or `b = c`), and every membership value lies in
`[0, 1]`. -/
theorem trimf_vertices_and_range (a b c x : ℚ) (hab : a ≤ b) (hbc : b ≤ c) :
    (a < b → trimf a b c a = 0) ∧ trimf a b c b = 1 ∧ (b < c → trimf a b c c = 0) ∧
    (a = b → trimf a b c a = 1) ∧ (b = c → trimf a b c c = 1) ∧
    0 ≤ trimf a b c x ∧ trimf a b c x ≤ 1 := by
  refine ⟨?_, ?_, ?_, ?_, ?_, ?_⟩
  · intro hlt
    unfold trimf
    split_ifs with h1 h2 h3
    · exact absurd h1 (ne_of_lt hlt)
    · exact absurd h2.1 (lt_irrefl a)
    · exact absurd (lt_trans h3.1 hlt) (lt_irrefl b)
    · rfl
  · simp [trimf]
  · intro hlt
    unfold trimf
    split_ifs with h1 h2 h3
    · exact absurd h1 (ne_of_gt hlt)
    · exact absurd (lt_trans h2.2 hlt) (lt_irrefl c)
    · exact absurd h3.2 (lt_irrefl c)
    · rfl
  · intro h
    subst h
    simp [trimf]
  · intro h
    subst h
    simp [trimf]
  · constructor
    · unfold trimf
      split_ifs with h1 h2 h3
      · norm_num
      · exact div_nonneg (by linarith [h2.1]) (by linarith [h2.1, h2.2])
      · exact div_nonneg (by linarith [h3.2]) (by linarith [h3.1, h3.2])
      · norm_num
    · unfold trimf
      split_ifs with h1 h2 h3
      · norm_num
      · rw [div_le_one (by linarith [h2.1, h2.2])]
        linarith [h2.2]
      · rw [div_le_one (by linarith [h3.1, h3.2])]
        linarith [h3.1]
      · norm_num

/-- Witness for `trimf_vertices_and_range` at the concrete parameters
`a = 0, b = 1/2, c = 1` evaluated at `x = 3/4`. -/
theorem trimf_vertices_and_range_witness :
    ((0:ℚ) ≤ 1/2 ∧ (1/2:ℚ) ≤ 1) ∧
    (((0:ℚ) < 1/2 → trimf 0 (1/2) 1 0 = 0) ∧ trimf 0 (1/2) 1 (1/2) = 1 ∧
      ((1/2:ℚ) < 1 → trimf 0 (1/2) 1 1 = 0) ∧
      ((0:ℚ) = 1/2 → trimf 0 (1/2) 1 0 = 1) ∧ ((1/2:ℚ) = 1 → trimf 0 (1/2) 1 1 = 1) ∧
      0 ≤ trimf 0 (1/2) 1 (3/4) ∧ trimf 0 (1/2) 1 (3/4) ≤ 1) :=
  ⟨⟨by norm_num, by norm_num⟩,
    trimf_vertices_and_range 0 (1/2) 1 (3/4) (by norm_num) (by norm_num)⟩

/-- Claim C3 counterexample — the claim asserts that any one factor `high`
together with another factor `medium` implies `strongly_anomalous`, but the
rule base contains no rule for `correlation_change` high with
`variance_change` medium. -/
theorem ruleBase_missing_ccHigh_vcMedium :
    hasRuleMatching [(.correlationChg, .high), (.varianceChg, .medium)]
      .stronglyAnomalous = false := by
  rfl

/-- Claim C3 (amended) — the rule base has exactly 14 rules encoding:
all three factors low implies normal; exactly one factor medium (others low)
implies slightly anomalous; each of the three pairs of medium factors implies
moderately anomalous; each of the three pairs of high factors implies
strongly anomalous; and a high factor with a medium factor implies strongly
anomalous for exactly the four combinations present in the source (fe high
with vc medium, fe medium with vc high, fe high with cc medium, vc high with
cc medium) while the two combinations pairing cc high with a medium other
factor are absent. -/
theorem ruleBase_structure :
    rules.length = 14 ∧
    hasRuleMatching [(.forecastErr, .low), (.varianceChg, .low), (.correlationChg, .low)]
      .normal = true ∧
    hasRuleMatching [(.forecastErr, .medium), (.varianceChg, .low), (.correlationChg, .low)]
      .slightlyAnomalous = true ∧
    hasRuleMatching [(.forecastErr, .low), (.varianceChg, .medium), (.correlationChg, .low)]
      .slightlyAnomalous = true ∧
    hasRuleMatching [(.forecastErr, .low), (.varianceChg, .low), (.correlationChg, .medium)]
      .slightlyAnomalous = true ∧
    hasRuleMatching [(.forecastErr, .medium), (.varianceChg, .medium)]
      .moderatelyAnomalous = true ∧
    hasRuleMatching [(.forecastErr, .medium), (.correlationChg, .medium)]
      .moderatelyAnomalous = true ∧
    hasRuleMatching [(.varianceChg, .medium), (.correlationChg, .medium)]
      .moderatelyAnomalous = true ∧
    hasRuleMatching [(.forecastErr, .high), (.varianceChg, .high)]
      .stronglyAnomalous = true ∧
    hasRuleMatching [(.forecastErr, .high), (.correlationChg, .high)]
      .stronglyAnomalous = true ∧
    hasRuleMatching [(.varianceChg, .high), (.correlationChg, .high)]
      .stronglyAnomalous = true ∧
    hasRuleMatching [(.forecastErr, .high), (.varianceChg, .medium)]
      .stronglyAnomalous = true ∧
    hasRuleMatching [(.forecastErr, .medium), (.varianceChg, .high)]
      .stronglyAnomalous = true ∧
    hasRuleMatching [(.forecastErr, .high), (.correlationChg, .medium)]
      .stronglyAnomalous = true ∧
    hasRuleMatching [(.varianceChg, .high), (.correlationChg, .medium)]
      .stronglyAnomalous = true ∧
    hasRuleMatching [(.forecastErr, .medium), (.correlationChg, .high)]
      .stronglyAnomalous = false ∧
    hasRuleMatching [(.varianceChg, .medium), (.correlationChg, .high)]
      .stronglyAnomalous = false :=
  ⟨rfl, rfl, rfl, rfl, rfl, rfl, rfl, rfl, rfl, rfl, rfl, rfl, rfl, rfl, rfl, rfl, rfl⟩

/-- Claim C6 — evaluating raw inputs gives exactly the same result and
post-state as evaluating the componentwise clamped inputs; in particular
`evaluate(-1, 2, 0.5)` equals `evaluate(0, 1, 0.5)`. -/
theorem evaluate_clip_equivalence :
    (∀ (s : SimState) (x y z : ℚ),
      evaluate s x y z = evaluate s (npClip 0 1 x) (npClip 0 1 y) (npClip 0 1 z)) ∧
    evaluate initSimState (-1) 2 (1/2) = evaluate initSimState 0 1 (1/2) := by
  have hmain : ∀ (s : SimState) (x y z : ℚ),
      evaluate s x y z = evaluate s (npClip 0 1 x) (npClip 0 1 y) (npClip 0 1 z) := by
    intro s x y z
    unfold evaluate
    rw [npClip_idem, npClip_idem, npClip_idem]
  refine ⟨hmain, ?_⟩
  rw [hmain initSimState (-1) 2 (1/2)]
  norm_num [npClip]

/-- Claim C8 — `evaluate` is deterministic: the returned `(crisp_value,
label)` does not depend on the simulator state the call starts from, and a
second call with identical inputs returns the identical result and leaves
the identical state. -/
theorem evaluate_deterministic :
    ∀ (s s' : SimState) (x y z : ℚ),
      (evaluate s x y z).1 = (evaluate s' x y z).1 ∧
      evaluate ((evaluate s x y z).2) x y z = evaluate s x y z := by
  intro s s' x y z
  constructor
  · rw [evaluate_fst, evaluate_fst]
  · unfold evaluate
    exact evaluateCore_repeat s (npClip 0 1 x) (npClip 0 1 y) (npClip 0 1 z)

/-- Claim C9 (amended) — `evaluate` does mutate the per-instance simulator:
every call overwrites the simulator's three input buffers with the clipped
inputs (and, on success, its output buffer), while the returned result
depends only on the call's inputs and not on the pre-existing simulator
state. -/
theorem evaluate_mutates_shared_simulator :
    ∀ (s : SimState) (x y z : ℚ),
      (evaluate s x y z).2.input_forecast_error = some (npClip 0 1 x) ∧
      (evaluate s x y z).2.input_variance_change = some (npClip 0 1 y) ∧
      (evaluate s x y z).2.input_correlation_change = some (npClip 0 1 z) ∧
      ∀ s', (evaluate s x y z).1 = (evaluate s' x y z).1 := by
  intro s x y z
  refine ⟨?_, ?_, ?_, fun s' => by rw [evaluate_fst, evaluate_fst]⟩
  · unfold evaluate
    rw [evaluateCore_eq, (writeOut_preserves_inputs _ _).1]
    simp [writeInputs, npClip_idem]
  · unfold evaluate
    rw [evaluateCore_eq, (writeOut_preserves_inputs _ _).2.1]
    simp [writeInputs, npClip_idem]
  · unfold evaluate
    rw [evaluateCore_eq, (writeOut_preserves_inputs _ _).2.2]
    simp [writeInputs, npClip_idem]

/-- Claim C9 counterexample — `evaluate` is not free of instance-state
mutation: one call on a freshly built simulator changes the simulator state
(the input buffers get written). -/
theorem evaluate_changes_state :
    (evaluate initSimState 0 0 0).2 ≠ initSimState := by
  intro hEq
  have h1 := congrArg SimState.input_forecast_error hEq
  unfold evaluate at h1
  rw [evaluateCore_eq, (writeOut_preserves_inputs _ _).1] at h1
  norm_num [writeInputs, initSimState, npClip] at h1
  exact Option.noConfusion h1

/-- Claim C10 — `evaluate` is symmetric in its first two arguments: the
membership functions of `forecast_error` and `variance_change` are identical
and the 14-rule base is invariant under swapping the two variables, so the
returned result is unchanged when the first two inputs are exchanged. -/
theorem evaluate_symmetric_in_first_two_args :
    ∀ (s : SimState) (x y z : ℚ), (evaluate s x y z).1 = (evaluate s y x z).1 := by
  intro s x y z
  rw [evaluate_fst, evaluate_fst]
  exact congrArg inferResult (funext (cut_swap_fe_vc _ _ _))

/-- Claim C4 (amended) — `evaluate` performs no finiteness validation:
an infinite input is clipped into `[0, 1]` by `np.clip` exactly like a
finite out-of-range input (`+inf` to `1.0`, `-inf` to `0.0`), and the call
then behaves identically to the call on the clipped finite inputs; the code
defines no `InvalidInputError`. -/
theorem evaluateX_clips_infinities :
    ∀ (s : SimState) (x y z : XVal),
      evaluateX s x y z = evaluate s (clipX01 x) (clipX01 y) (clipX01 z) ∧
      (0 ≤ clipX01 x ∧ clipX01 x ≤ 1) ∧
      clipX01 .posInf = 1 ∧ clipX01 .negInf = 0 := by
  intro s x y z
  refine ⟨?_, ?_, rfl, rfl⟩
  · unfold evaluateX evaluate
    rw [npClip_clipX01, npClip_clipX01, npClip_clipX01]
  · cases x with
    | fin q => exact npClip_mem_unit q
    | posInf => norm_num [clipX01]
    | negInf => norm_num [clipX01]

theorem outUniverse_sorted : outUniverse.Sorted (· ≤ ·) := by
  unfold outUniverse
  rw [List.Sorted, List.pairwise_map]
  apply List.Pairwise.imp ?_ (List.pairwise_lt_range 101)
  intro a b hab
  have hc : (a : ℚ) ≤ (b : ℚ) := by exact_mod_cast hab.le
  nlinarith

theorem outUniverse_bounds : ∀ u ∈ outUniverse, 0 ≤ u ∧ u ≤ 10 := by
  intro u hu
  unfold outUniverse at hu
  rcases List.mem_map.mp hu with ⟨k, hk, rfl⟩
  have hk1 : k < 101 := List.mem_range.mp hk
  have h0 : (0:ℚ) ≤ (k:ℚ) := Nat.cast_nonneg k
  have h100 : (k:ℚ) ≤ 100 := by exact_mod_cast Nat.le_of_lt_succ hk1
  constructor <;> nlinarith

theorem crossPoint_between (x1 y1 x2 y2 lvl : ℚ) (hx : x1 ≤ x2)
    (hcr : crossIndicator lvl y1 y2 = true) :
    x1 ≤ crossPoint x1 y1 x2 y2 lvl ∧ crossPoint x1 y1 x2 y2 lvl ≤ x2 := by
  have hr : 0 ≤ (lvl - y1) / (y2 - y1) ∧ (lvl - y1) / (y2 - y1) ≤ 1 := by
    unfold crossIndicator at hcr
    split_ifs at hcr with hl
    · subst hl
      have hne : ¬ ((0 < y1) ↔ (0 < y2)) := by
        simpa [bne_iff_ne, decide_eq_decide] using hcr
      by_cases h1 : 0 < y1
      · have h2 : ¬ 0 < y2 := fun h => hne ⟨fun _ => h, fun _ => h1⟩
        push_neg at h2
        constructor
        · exact div_nonneg_iff.mpr (Or.inr ⟨by linarith, by linarith⟩)
        · rw [div_le_one_of_neg (by linarith)]
          linarith
      · have h2 : 0 < y2 := by
          by_contra h2
          exact hne ⟨fun h => absurd h h1, fun h => absurd h h2⟩
        push_neg at h1
        constructor
        · exact div_nonneg (by linarith) (by linarith)
        · rw [div_le_one (by linarith)]
          linarith
    · have hne : ¬ ((lvl ≤ y1) ↔ (lvl ≤ y2)) := by
        simpa [bne_iff_ne, decide_eq_decide] using hcr
      by_cases h1 : lvl ≤ y1
      · have h2 : ¬ lvl ≤ y2 := fun h => hne ⟨fun _ => h, fun _ => h1⟩
        push_neg at h2
        constructor
        · exact div_nonneg_iff.mpr (Or.inr ⟨by linarith, by linarith⟩)
        · rw [div_le_one_of_neg (by linarith)]
          linarith
      · have h2 : lvl ≤ y2 := by
          by_contra h2
          exact hne ⟨fun h => absurd h h1, fun h => absurd h h2⟩
        push_neg at h1
        constructor
        · exact div_nonneg (by linarith) (by linarith)
        · rw [div_le_one (by linarith)]
          linarith
  unfold crossPoint
  have hrw : (lvl - y1) * (x2 - x1) / (y2 - y1) = (lvl - y1) / (y2 - y1) * (x2 - x1) := by
    ring
  rw [hrw]
  constructor
  · nlinarith [mul_nonneg hr.1 (by linarith : (0:ℚ) ≤ x2 - x1)]
  · have hle : (lvl - y1) / (y2 - y1) * (x2 - x1) ≤ x2 - x1 :=
      mul_le_of_le_one_left (by linarith) hr.2
    linarith

theorem interpUniverse_bounds (lvl : ℚ) : ∀ (xs ys : List ℚ),
    List.Chain' (· ≤ ·) xs → (∀ x ∈ xs, 0 ≤ x ∧ x ≤ 10) →
    ∀ v ∈ interpUniverse xs ys lvl, 0 ≤ v ∧ v ≤ 10 := by
  intro xs
  induction xs with
  | nil => intro ys _ _ v hv; simp [interpUniverse] at hv
  | cons x1 rest ih =>
      intro ys hch hb v hv
      cases rest with
      | nil => simp [interpUniverse] at hv
      | cons x2 xs2 =>
          cases ys with
          | nil => simp [interpUniverse] at hv
          | cons y1 ys1 =>
              cases ys1 with
              | nil => simp [interpUniverse] at hv
              | cons y2 ys2 =>
                  simp only [interpUniverse, List.mem_append] at hv
                  rcases hv with hv | hv
                  · split_ifs at hv with hcr
                    · rcases List.mem_singleton.mp hv with rfl
                      have h12 : x1 ≤ x2 := (List.chain'_cons.mp hch).1
                      have hbp := crossPoint_between x1 y1 x2 y2 lvl h12 hcr
                      have hb1 := hb x1 (List.mem_cons_self x1 (x2 :: xs2))
                      have hb2 := hb x2 (List.mem_cons_of_mem x1
                        (List.mem_cons_self x2 xs2))
                      exact ⟨le_trans hb1.1 hbp.1, le_trans hbp.2 hb2.2⟩
                    · simp at hv
                  · exact ih (y2 :: ys2) (List.chain'_cons.mp hch).2
                      (fun x hx => hb x (List.mem_cons_of_mem x1 hx)) v hv

theorem unionSorted_sorted (extra : List ℚ) : ∀ base : List ℚ,
    base.Sorted (· ≤ ·) → (unionSorted base extra).Sorted (· ≤ ·) := by
  induction extra with
  | nil => intro base hb; exact hb
  | cons v vs ih =>
      intro base hb
      unfold unionSorted
      simp only [List.foldl_cons]
      apply ih
      split_ifs with hmem
      · exact hb
      · exact hb.orderedInsert v base

theorem unionSorted_forall {P : ℚ → Prop} (extra : List ℚ) : ∀ base : List ℚ,
    (∀ u ∈ base, P u) → (∀ v ∈ extra, P v) → ∀ w ∈ unionSorted base extra, P w := by
  induction extra with
  | nil => intro base hbase _ w hw; exact hbase w hw
  | cons v vs ih =>
      intro base hbase hextra w hw
      unfold unionSorted at hw
      simp only [List.foldl_cons] at hw
      refine ih _ ?_ (fun u hu => hextra u (List.mem_cons_of_mem v hu)) w hw
      intro u hu
      split_ifs at hu with hmem
      · exact hbase u hu
      · rcases (List.mem_orderedInsert (· ≤ ·)).mp hu with heq | hu
        · rw [heq]
          exact hextra v (List.mem_cons_self v vs)
        · exact hbase u hu

theorem upsample_sorted (cuts : OutTerm → ℚ) : (upsample cuts).Sorted (· ≤ ·) :=
  unionSorted_sorted _ _ outUniverse_sorted

theorem upsample_bounds (cuts : OutTerm → ℚ) :
    ∀ v ∈ upsample cuts, 0 ≤ v ∧ v ≤ 10 := by
  apply unionSorted_forall _ _ outUniverse_bounds
  intro v hv
  rcases List.mem_flatten.mp hv with ⟨l, hl, hvl⟩
  rcases List.mem_map.mp hl with ⟨t, _, rfl⟩
  exact interpUniverse_bounds (cuts t) outUniverse (sampledMF t)
    (List.chain'_iff_pairwise.mpr outUniverse_sorted) outUniverse_bounds v hvl

theorem le_foldl_max_acc {α : Type} (g : α → ℚ) :
    ∀ (l : List α) (a : ℚ), a ≤ l.foldl (fun acc t => max acc (g t)) a := by
  intro l
  induction l with
  | nil => intro a; exact le_refl a
  | cons t ts ih =>
      intro a
      exact le_trans (le_max_left a (g t)) (ih (max a (g t)))

theorem aggMF_nonneg (cuts : OutTerm → ℚ) (u : ℚ) : 0 ≤ aggMF cuts u :=
  le_foldl_max_acc (fun t => min (cuts t) (interp1 outUniverse (sampledMF t) u))
    outTermsOrder 0

theorem aggPts_chain (cuts : OutTerm → ℚ) :
    List.Chain' (fun p q : ℚ × ℚ => p.1 ≤ q.1) (aggPts cuts) := by
  unfold aggPts
  rw [List.chain'_map]
  have h : List.Chain' (· ≤ ·) (upsample cuts) :=
    List.chain'_iff_pairwise.mpr (upsample_sorted cuts)
  exact h

theorem aggPts_bounds (cuts : OutTerm → ℚ) :
    ∀ p ∈ aggPts cuts, (0 ≤ p.1 ∧ p.1 ≤ 10) ∧ 0 ≤ p.2 := by
  intro p hp
  unfold aggPts at hp
  rcases List.mem_map.mp hp with ⟨u, hu, rfl⟩
  exact ⟨upsample_bounds cuts u hu, aggMF_nonneg cuts u⟩

theorem segContrib_eq (x1 y1 x2 y2 : ℚ) (hy1 : 0 ≤ y1) (hy2 : 0 ≤ y2) :
    segContrib x1 y1 x2 y2 =
      (x1 * ((x2 - x1) * (y1 + y2) / 2) + (x2 - x1) ^ 2 * (y1 / 6 + y2 / 3),
        (x2 - x1) * (y1 + y2) / 2) := by
  unfold segContrib
  split_ifs with h1 h2 h3 h4
  · rcases h1 with ⟨hy, h0⟩ | hx
    · subst hy
      subst h0
      rw [Prod.mk.injEq]
      constructor <;> ring
    · subst hx
      rw [Prod.mk.injEq]
      constructor <;> ring
  · subst h2
    rw [Prod.mk.injEq]
    constructor <;> ring
  · subst h3
    rw [Prod.mk.injEq]
    constructor <;> ring
  · subst h4
    rw [Prod.mk.injEq]
    constructor <;> ring
  · have hy1pos : 0 < y1 := lt_of_le_of_ne hy1 (Ne.symm h3)
    have hsum : y1 + y2 ≠ 0 := ne_of_gt (by linarith)
    rw [Prod.mk.injEq]
    constructor
    · field_simp
      ring
    · ring

theorem segContrib_bounds (x1 y1 x2 y2 : ℚ) (hx12 : x1 ≤ x2) (hx0 : 0 ≤ x1)
    (hx10 : x2 ≤ 10) (hy1 : 0 ≤ y1) (hy2 : 0 ≤ y2) :
    0 ≤ (segContrib x1 y1 x2 y2).2 ∧ 0 ≤ (segContrib x1 y1 x2 y2).1 ∧
      (segContrib x1 y1 x2 y2).1 ≤ 10 * (segContrib x1 y1 x2 y2).2 := by
  rw [segContrib_eq x1 y1 x2 y2 hy1 hy2]
  have hw : 0 ≤ x2 - x1 := by linarith
  have hyy : 0 ≤ y1 + y2 := by linarith
  have harea : 0 ≤ (x2 - x1) * (y1 + y2) / 2 :=
    div_nonneg (mul_nonneg hw hyy) (by norm_num)
  refine ⟨harea, ?_, ?_⟩
  · have hm1 : 0 ≤ x1 * ((x2 - x1) * (y1 + y2) / 2) := mul_nonneg hx0 harea
    have hm2 : 0 ≤ (x2 - x1) ^ 2 * (y1 / 6 + y2 / 3) :=
      mul_nonneg (sq_nonneg _) (by linarith)
    exact add_nonneg hm1 hm2
  · have key : x1 * ((x2 - x1) * (y1 + y2) / 2) + (x2 - x1) ^ 2 * (y1 / 6 + y2 / 3) ≤
        x2 * ((x2 - x1) * (y1 + y2) / 2) := by
      nlinarith [mul_nonneg (mul_nonneg hw hw) hy1, mul_nonneg (mul_nonneg hw hw) hy2]
    have h10 : x2 * ((x2 - x1) * (y1 + y2) / 2) ≤ 10 * ((x2 - x1) * (y1 + y2) / 2) :=
      mul_le_mul_of_nonneg_right hx10 harea
    linarith

theorem centroidSums_bounds : ∀ (pts : List (ℚ × ℚ)),
    List.Chain' (fun p q : ℚ × ℚ => p.1 ≤ q.1) pts →
    (∀ p ∈ pts, (0 ≤ p.1 ∧ p.1 ≤ 10) ∧ 0 ≤ p.2) →
    0 ≤ (centroidSums pts).2 ∧ 0 ≤ (centroidSums pts).1 ∧
      (centroidSums pts).1 ≤ 10 * (centroidSums pts).2 := by
  intro pts
  induction pts with
  | nil => intro _ _; norm_num [centroidSums]
  | cons p rest ih =>
      intro hch hb
      cases rest with
      | nil => norm_num [centroidSums]
      | cons q rest2 =>
          have hpq : p.1 ≤ q.1 := (List.chain'_cons.mp hch).1
          have ihS := ih (List.chain'_cons.mp hch).2
            (fun r hr => hb r (List.mem_cons_of_mem p hr))
          have hbp := hb p (List.mem_cons_self p (q :: rest2))
          have hbq := hb q (List.mem_cons_of_mem p (List.mem_cons_self q rest2))
          have hseg := segContrib_bounds p.1 p.2 q.1 q.2 hpq hbp.1.1 hbq.1.2 hbp.2 hbq.2
          simp only [centroidSums]
          refine ⟨?_, ?_, ?_⟩
          · have := ihS.1
            have := hseg.1
            linarith
          · have := ihS.2.1
            have := hseg.2.1
            linarith
          · have := ihS.2.2
            have := hseg.2.2
            have := ihS.1
            have := hseg.1
            linarith

theorem centroid_bounds (pts : List (ℚ × ℚ))
    (hch : List.Chain' (fun p q : ℚ × ℚ => p.1 ≤ q.1) pts)
    (hb : ∀ p ∈ pts, (0 ≤ p.1 ∧ p.1 ≤ 10) ∧ 0 ≤ p.2) :
    0 ≤ centroid pts ∧ centroid pts ≤ 10 := by
  have heps : (0:ℚ) < machineEps := by norm_num [machineEps]
  cases pts with
  | nil =>
      have h0 : centroid [] = 0 := by
        show (centroidSums []).1 / max (centroidSums []).2 machineEps = 0
        show (0:ℚ) / max (0:ℚ) machineEps = 0
        exact zero_div _
      rw [h0]
      norm_num
  | cons p rest =>
      cases rest with
      | nil =>
          obtain ⟨⟨hp0, hp10⟩, hpy⟩ := hb p (List.mem_cons_self p [])
          have hd : 0 < max p.2 machineEps := lt_of_lt_of_le heps (le_max_right _ _)
          constructor
          · show 0 ≤ p.1 * p.2 / max p.2 machineEps
            exact div_nonneg (mul_nonneg hp0 hpy) hd.le
          · show p.1 * p.2 / max p.2 machineEps ≤ 10
            rw [div_le_iff₀ hd]
            have h1 : p.1 * p.2 ≤ 10 * p.2 := mul_le_mul_of_nonneg_right hp10 hpy
            have h2 : (10:ℚ) * p.2 ≤ 10 * max p.2 machineEps :=
              mul_le_mul_of_nonneg_left (le_max_left _ _) (by norm_num)
            linarith
      | cons q rest2 =>
          obtain ⟨hS2, hS1, hS10⟩ := centroidSums_bounds (p :: q :: rest2) hch hb
          have hd : 0 < max (centroidSums (p :: q :: rest2)).2 machineEps :=
            lt_of_lt_of_le heps (le_max_right _ _)
          constructor
          · show 0 ≤ (centroidSums (p :: q :: rest2)).1 /
              max (centroidSums (p :: q :: rest2)).2 machineEps
            exact div_nonneg hS1 hd.le
          · show (centroidSums (p :: q :: rest2)).1 /
              max (centroidSums (p :: q :: rest2)).2 machineEps ≤ 10
            rw [div_le_iff₀ hd]
            have h2 : (10:ℚ) * (centroidSums (p :: q :: rest2)).2 ≤
                10 * max (centroidSums (p :: q :: rest2)).2 machineEps :=
              mul_le_mul_of_nonneg_left (le_max_left _ _) (by norm_num)
            linarith

theorem argmax_fold_mem : ∀ (l : List (String × ℚ)) (b : String × ℚ),
    l.foldl (fun best q => if best.2 < q.2 then q else best) b ∈ b :: l := by
  intro l
  induction l with
  | nil => intro b; exact List.mem_cons_self b []
  | cons q qs ih =>
      intro b
      rw [List.foldl_cons]
      rcases List.mem_cons.mp (ih (if b.2 < q.2 then q else b)) with h1 | h1
      · rw [h1]
        split_ifs
        · exact List.mem_cons_of_mem b (List.mem_cons_self q qs)
        · exact List.mem_cons_self b (q :: qs)
      · exact List.mem_cons_of_mem b (List.mem_cons_of_mem q h1)

theorem argmaxLabel_mem_four (p1 p2 p3 p4 : String × ℚ) :
    argmaxLabel [p1, p2, p3, p4] = p1.1 ∨ argmaxLabel [p1, p2, p3, p4] = p2.1 ∨
    argmaxLabel [p1, p2, p3, p4] = p3.1 ∨ argmaxLabel [p1, p2, p3, p4] = p4.1 := by
  have h := argmax_fold_mem [p2, p3, p4] p1
  simp only [List.mem_cons, List.not_mem_nil, or_false] at h
  unfold argmaxLabel
  rcases h with h | h | h | h
  · exact Or.inl (congrArg Prod.fst h)
  · exact Or.inr (Or.inl (congrArg Prod.fst h))
  · exact Or.inr (Or.inr (Or.inl (congrArg Prod.fst h)))
  · exact Or.inr (Or.inr (Or.inr (congrArg Prod.fst h)))

theorem labelFor_cases (c : ℚ) :
    labelFor c = "normal" ∨ labelFor c = "slightly_anomalous" ∨
    labelFor c = "moderately_anomalous" ∨ labelFor c = "strongly_anomalous" := by
  unfold labelFor outTermsOrder
  simp only [List.map_cons, List.map_nil]
  simpa [outLabel] using argmaxLabel_mem_four
    (outLabel .normal, interp1 outUniverse (sampledMF .normal) c)
    (outLabel .slightlyAnomalous, interp1 outUniverse (sampledMF .slightlyAnomalous) c)
    (outLabel .moderatelyAnomalous, interp1 outUniverse (sampledMF .moderatelyAnomalous) c)
    (outLabel .stronglyAnomalous, interp1 outUniverse (sampledMF .stronglyAnomalous) c)

theorem inferResult_eq (cuts : OutTerm → ℚ) :
    inferResult cuts =
      if ((aggPts cuts).map Prod.snd).sum = 0 then .error .crispOutputNotCalculable
      else .ok (centroid (aggPts cuts), labelFor (centroid (aggPts cuts))) :=
  rfl

/-- Claim C1 (amended) — whenever `evaluate` returns a result, the crisp
value lies in `[0, 10]` and the label is one of the output variable's four
terms.  (The unamended claim, that a result is returned for every input
triple, fails: see the counterexample theorem, where no rule fires and the
call raises instead.) -/
theorem evaluate_ok_range (s : SimState) (x y z : ℚ) (c : ℚ) (l : String)
    (h : (evaluate s x y z).1 = .ok (c, l)) :
    (0 ≤ c ∧ c ≤ 10) ∧
    (l = "normal" ∨ l = "slightly_anomalous" ∨ l = "moderately_anomalous" ∨
      l = "strongly_anomalous") := by
  rw [evaluate_fst, inferResult_eq] at h
  by_cases hz : ((aggPts (fun t =>
      cut (npClip 0 1 x) (npClip 0 1 y) (npClip 0 1 z) t)).map Prod.snd).sum = 0
  · rw [if_pos hz] at h
    exact Except.noConfusion h
  · rw [if_neg hz] at h
    injection h with h2
    rw [Prod.mk.injEq] at h2
    obtain ⟨hc, hl⟩ := h2
    subst hc
    subst hl
    exact ⟨centroid_bounds _ (aggPts_chain _) (aggPts_bounds _), labelFor_cases _⟩

set_option maxRecDepth 2000000

/-- Claim C1 counterexample — `evaluate` does not return a `(crisp_value,
label)` pair for every finite input triple: at `(0.1, 0.5, 0.9)` (already
inside `[0,1]^3`, so clipping changes nothing) no rule of the 14-rule base
fires, the aggregated output fuzzy set is identically zero, and the call
raises skfuzzy's zero-area error instead of returning. -/
theorem evaluate_not_total :
    (evaluate initSimState (1/10) (1/2) (9/10)).1 = .error .crispOutputNotCalculable := by
  with_unfolding_all rfl

/-- Witness for `evaluate_ok_range` at the concrete call
`evaluate(0, 0, 0)`, which returns crisp value `1` with label `normal`. -/
theorem evaluate_ok_range_witness :
    (evaluate initSimState 0 0 0).1 = .ok (1, "normal") ∧
    ((0 ≤ (1:ℚ) ∧ (1:ℚ) ≤ 10) ∧
      ("normal" = "normal" ∨ "normal" = "slightly_anomalous" ∨
        "normal" = "moderately_anomalous" ∨ "normal" = "strongly_anomalous")) := by
  have h : (evaluate initSimState 0 0 0).1 = .ok (1, "normal") := by
    with_unfolding_all rfl
  exact ⟨h, evaluate_ok_range initSimState 0 0 0 1 "normal" h⟩

/-- Claim C2 — at the clipped input `(0.1, 0.5, 0.9)` every rule's firing
strength is `0`, and `evaluate` does NOT handle the degenerate all-zero
aggregated fuzzy set: there is no fallback in the code, and the zero-area
error raised inside the library's centroid defuzzifier propagates out of
`evaluate` (the code-level divergence from the claim). -/
theorem noRuleFires_raises :
    (∀ r ∈ rules, fire (1/10) (1/2) (9/10) r = 0) ∧
    (evaluate initSimState (1/10) (1/2) (9/10)).1 = .error .crispOutputNotCalculable := by
  constructor
  · intro r hr
    fin_cases hr <;> with_unfolding_all rfl
  · with_unfolding_all rfl

/-- Claim C4 counterexample — `evaluate` raises no error for non-finite
inputs: called with `+inf` in every argument it clips them to `1.0` and
returns the ordinary result for `(1, 1, 1)` instead of raising an
`InvalidInputError` (no such exception exists in the code). -/
theorem evaluateX_posInf_returns :
    (evaluateX initSimState .posInf .posInf .posInf).1 =
      .ok (26/3, "strongly_anomalous") := by
  with_unfolding_all rfl

/-- Claim C5 — `evaluate(0, 0, 0)` returns label `normal` with crisp value
`1 < 3`, and `evaluate(1, 1, 1)` returns label `strongly_anomalous` with
crisp value `26/3 > 7`. -/
theorem evaluate_sanity_extremes :
    (evaluate initSimState 0 0 0).1 = .ok (1, "normal") ∧ (1:ℚ) < 3 ∧
    (evaluate initSimState 1 1 1).1 = .ok (26/3, "strongly_anomalous") ∧
    (7:ℚ) < 26/3 :=
  ⟨by with_unfolding_all rfl, by norm_num, by with_unfolding_all rfl, by norm_num⟩
